import Mathlib

/-!
Shallow embedding of the poker game-state machine of `src/contract/src/lib.rs`
(the `rainbase` NEAR contract).  The cryptographic collaborators (reveal-token
verification, shuffle verification, unmasking, the hand evaluator) are external
to the core per the specification; they enter the embedding as oracle
parameters (`Bool`-valued verifiers, a `Nat`-valued score function).  Token and
masked-card buffers are abstracted to `Nat` payloads: the core logic only
stores and compares them.  Machine balances (`u128`) are modelled as `Nat`;
a subtraction that would underflow (a panic in the contract) makes the
operation fail, matching the all-or-nothing execution model of §5 of the spec.
Each entry point is a function from the checked-out `GameState` to
`Except Err GameState`: `.ok` is the committed state, `.error` an aborted call.
-/

namespace Rainbase

/-- Error taxonomy of §7 of the spec; `Fatal` stands for a Rust panic that is
not one of the taxonomy's named assertion failures (`unwrap`/`expect`/index
out of bounds). -/
inductive Err where
  | AuthorizationError
  | StateError
  | NotFoundError
  | DuplicateError
  | ValidationError
  | CryptoVerificationError
  | Fatal
deriving DecidableEq, Repr

/-- `enum Phase` of the source, lines 440-453. -/
inductive Phase where
  | SHUFFLE
  | DEAL
  | BLIND
  | BET0
  | FLOP
  | BET1
  | TURN
  | BET2
  | RIVER
  | BET3
  | SHOWDOWN_REVEAL
  | SHOWDOWN
deriving DecidableEq, Repr

/-- `enum BetAmount` of the source, lines 179-189. -/
inductive BetAmount where
  | AllIn
  | In (amt : Nat)
  | Folded (amt : Nat)
deriving DecidableEq, Repr

/-- The amount a `BetAmount` records (0 for `AllIn`, which stakes the live balance). -/
def BetAmount.amt : BetAmount → Nat
  | .AllIn => 0
  | .In a => a
  | .Folded a => a

/-- `const LITTLE_BLIND_AMOUNT: Balance = 5` (line 56). -/
def littleBlindAmount : Nat := 5

/-- `const BIG_BLIND_AMOUNT: Balance = 10` (line 57). -/
def bigBlindAmount : Nat := 10

/-- `struct GameState` (lines 121-177).  `numPlayers` stands for
`player_account_ids.len()` (the identities themselves play no role in the
verified logic: callers are identified by their seat index).  `numCards`
stands for `pp.num_cards()` of the immutable public parameters.  A reveal
token buffer is abstracted to its `Nat` payload. -/
structure GameState where
  numPlayers : Nat
  numCards : Nat
  phase : Phase
  turn : Nat
  dealer : Nat
  revealed_players : List Bool
  bets : List BetAmount
  ante : Nat
  checks : List Bool
  balances : List Nat
  deck : List Nat
  reveal_tokens_with_proofs : List (List (Option Nat))
deriving DecidableEq, Repr

/-- `GameState::new` (lines 192-222): the state `start_game` installs.
Note the source initializes the token matrix with a literal 52 rows. -/
def GameState.new (numPlayers numCards : Nat) : GameState :=
  { numPlayers := numPlayers
    numCards := numCards
    phase := .SHUFFLE
    turn := 0
    dealer := 0
    ante := 0
    checks := List.replicate numPlayers false
    revealed_players := List.replicate numPlayers false
    bets := List.replicate numPlayers (.In 0)
    balances := List.replicate numPlayers 0
    deck := []
    reveal_tokens_with_proofs := List.replicate 52 (List.replicate numPlayers none) }

/-- `matches!(self.bets[i], BetAmount::Folded(_))` on a raw bet list
(`GameState::player_is_folded`, lines 365-367). -/
def isFoldedAt (bets : List BetAmount) (i : Nat) : Bool :=
  match bets.getD i (.In 0) with
  | .Folded _ => true
  | _ => false

/-- `GameState::player_is_folded` (lines 365-367). -/
def GameState.player_is_folded (s : GameState) (i : Nat) : Bool :=
  isFoldedAt s.bets i

/-- The loop body of `GameState::next_in_player` (lines 350-363): starting at
seat `i`, scan up to `fuel` seats (wrapping mod `n`) for a non-folded one. -/
def nipAux (bets : List BetAmount) (n : Nat) : Nat → Nat → Option Nat
  | 0, _ => none
  | fuel + 1, i => if isFoldedAt bets i then nipAux bets n fuel ((i + 1) % n) else some i

/-- `GameState::next_in_player` (lines 350-363): the first non-folded seat
strictly after `turn` in wrapping order (`turn` itself is reached last, after
`num_players - 1` folded seats); `none` after `num_players` folded probes. -/
def GameState.next_in_player (s : GameState) : Option Nat :=
  nipAux s.bets s.numPlayers s.numPlayers ((s.turn + 1) % s.numPlayers)

/-- `self.revealed_players.iter().all(|&x| x)` helper. -/
def allTrue (l : List Bool) : Bool :=
  l.all (fun b => b)

/-- `GameState::all_players_revealed` (lines 261-263). -/
def GameState.all_players_revealed (s : GameState) : Bool :=
  allTrue s.revealed_players

/-- `GameState::num_players_in` (lines 281-283): the count of non-folded seats
(indices ranging over `bets.len()`, as in the source). -/
def GameState.num_players_in (s : GameState) : Nat :=
  ((List.range s.bets.length).filter (fun i => ! s.player_is_folded i)).length

/-- `GameState::num_players_checked` (lines 285-287). -/
def GameState.num_players_checked (s : GameState) : Nat :=
  (s.checks.filter (fun b => b)).length

/-- `GameState::enough_players_checked` (lines 289-291). -/
def GameState.enough_players_checked (s : GameState) : Bool :=
  s.num_players_in == s.num_players_checked

/-- `GameState::player_can_check` (lines 305-312). -/
def GameState.player_can_check (s : GameState) : Bool :=
  match s.bets.getD s.turn (.In 0) with
  | .In amt => amt == s.ante
  | .AllIn => true
  | .Folded _ => false

/-- `GameState::player_can_call` (lines 314-321). -/
def GameState.player_can_call (s : GameState) : Bool :=
  match s.bets.getD s.turn (.In 0) with
  | .In _ => s.ante ≤ s.balances.getD s.turn 0
  | .AllIn => false
  | .Folded _ => false

/-- `GameState::player_can_all_in` (lines 323-330). -/
def GameState.player_can_all_in (s : GameState) : Bool :=
  match s.bets.getD s.turn (.In 0) with
  | .AllIn => false
  | .In _ => true
  | .Folded _ => false

/-- `GameState::player_can_fold` (lines 332-339). -/
def GameState.player_can_fold (s : GameState) : Bool :=
  match s.bets.getD s.turn (.In 0) with
  | .AllIn => true
  | .In _ => true
  | .Folded _ => false

/-- `GameState::player_can_raise` (lines 341-348). -/
def GameState.player_can_raise (s : GameState) : Bool :=
  match s.bets.getD s.turn (.In 0) with
  | .AllIn => false
  | .In _ => s.ante < s.balances.getD s.turn 0
  | .Folded _ => false

/-- The loop of `GameState::transfer_pot` (lines 369-386) over the enumerated
bet list starting at seat index `loser`: each non-winner seat's recorded stake
(its full balance if `AllIn`) moves from its balance to the winner's.  `none`
models the panic of an underflowing `u128` subtraction. -/
def transferPotAux (winner : Nat) : Nat → List BetAmount → List Nat → Option (List Nat)
  | _, [], bal => some bal
  | loser, b :: rest, bal =>
    if loser = winner then transferPotAux winner (loser + 1) rest bal
    else
      match b with
      | .In a =>
        if a ≤ bal.getD loser 0 then
          transferPotAux winner (loser + 1) rest
            ((bal.set winner (bal.getD winner 0 + a)).set loser (bal.getD loser 0 - a))
        else none
      | .AllIn =>
        transferPotAux winner (loser + 1) rest
          ((bal.set winner (bal.getD winner 0 + bal.getD loser 0)).set loser 0)
      | .Folded a =>
        if a ≤ bal.getD loser 0 then
          transferPotAux winner (loser + 1) rest
            ((bal.set winner (bal.getD winner 0 + a)).set loser (bal.getD loser 0 - a))
        else none

/-- `GameState::transfer_pot` (lines 369-386). -/
def GameState.transfer_pot (s : GameState) (winner : Nat) : Option GameState :=
  match transferPotAux winner 0 s.bets s.balances with
  | some bal => some { s with balances := bal }
  | none => none

/-- `GameState::new_round` (lines 427-434). -/
def GameState.new_round (s : GameState) : GameState :=
  { s with
    bets := List.replicate s.numPlayers (.In 0)
    checks := List.replicate s.numPlayers false
    revealed_players := List.replicate s.numPlayers false
    reveal_tokens_with_proofs := List.replicate s.numCards (List.replicate s.numPlayers none)
    ante := 0
    turn := s.dealer }

/-- `GameState::set_reveal_token` (lines 249-251):
`reveal_tokens_with_proofs[card_idx][player_idx] = Some(token)`. -/
def GameState.set_reveal_token (s : GameState) (cardIdx playerIdx tok : Nat) : GameState :=
  { s with
    reveal_tokens_with_proofs :=
      s.reveal_tokens_with_proofs.set cardIdx
        ((s.reveal_tokens_with_proofs.getD cardIdx []).set playerIdx (some tok)) }

/-- `hands.iter().reduce(|a, b| if a.1 > b.1 { a } else { b })` of
`GameState::do_showdown` (line 423): the winner selection over the
`(player, score)` list. -/
def showdownWinner : List (Nat × Nat) → Option (Nat × Nat)
  | [] => none
  | h :: t => some (t.foldl (fun a b => if a.2 > b.2 then a else b) h)

/-- Spec-side selection rule, modelled from the claim's words "the first
maximal element encountered in iteration order wins": a tie between an earlier
and a later maximal element goes to the earlier one. -/
def firstMaxBySpec : List (Nat × Nat) → Option (Nat × Nat)
  | [] => none
  | h :: t =>
    match firstMaxBySpec t with
    | none => some h
    | some w => some (if w.2 ≤ h.2 then h else w)

/-- Spec-side selection rule for the amended claim: the last maximal element
in iteration order (a tie goes to the later element). -/
def lastMaxBySpec : List (Nat × Nat) → Option (Nat × Nat)
  | [] => none
  | h :: t =>
    match lastMaxBySpec t with
    | none => some h
    | some w => some (if h.2 > w.2 then h else w)

/-- Whether every seat's reveal token for card `i` is present
(`x.as_ref().expect("reveal token not set")` of `do_showdown` succeeds). -/
def tokensPresent (s : GameState) (i : Nat) : Bool :=
  (s.reveal_tokens_with_proofs.getD i []).all (fun o => o.isSome)

/-- The deck accesses and token `expect`s of `GameState::do_showdown`
(lines 388-421) all succeed: 5 community cards at indices
`2*num_players ..`, and both hole cards of every non-folded seat. -/
def showdownReady (s : GameState) : Bool :=
  ((List.range 5).all (fun r =>
      decide (2 * s.numPlayers + r < s.deck.length) && tokensPresent s (2 * s.numPlayers + r))) &&
  ((List.range s.numPlayers).all (fun p =>
      s.player_is_folded p ||
        (decide (2 * p + 1 < s.deck.length) && tokensPresent s (2 * p) && tokensPresent s (2 * p + 1))))

/-- `GameState::do_showdown` (lines 388-425).  Unmasking and the external hand
evaluator are abstracted into `score : seat → hand score`; the hands list is
built for the non-folded seats in seat order, exactly as the source's
`(0..num_players).filter(!folded)` loop does. -/
def do_showdown (s : GameState) (score : Nat → Nat) : Except Err GameState :=
  if showdownReady s then
    match showdownWinner
        (((List.range s.numPlayers).filter (fun p => ! s.player_is_folded p)).map
          (fun p => (p, score p))) with
    | some (winner, _) =>
      match s.transfer_pot winner with
      | some s' => .ok s'
      | none => .error .Fatal
    | none => .error .Fatal
  else .error .Fatal

/-- `Contract::init_deck` (lines 605-621).  The caller is passed as a seat
index; the creator check `player_account_ids[0] == account_id` becomes
`player = 0`. -/
def init_deck (s : GameState) (player : Nat) (deck : List Nat) : Except Err GameState :=
  if player ≠ 0 then .error .AuthorizationError
  else if s.deck.length ≠ 0 then .error .ValidationError
  else if deck.length ≠ 52 then .error .ValidationError
  else .ok { s.new_round with deck := deck }

/-- `Contract::shuffle_deck` (lines 624-661).  `verifyOk` is the outcome of
the external `verify_shuffle`.  Note the source checks only membership and
turn — it never checks `state.phase`. -/
def shuffle_deck (s : GameState) (player : Nat) (newDeck : List Nat) (verifyOk : Bool) :
    Except Err GameState :=
  if s.numPlayers ≤ player then .error .AuthorizationError
  else if s.turn ≠ player then .error .AuthorizationError
  else if ¬ verifyOk then .error .CryptoVerificationError
  else if (s.turn + 1) % s.numPlayers = s.dealer then
    .ok { s with
      deck := newDeck
      reveal_tokens_with_proofs := List.replicate s.numCards (List.replicate s.numPlayers none)
      turn := (s.turn + 1) % s.numPlayers
      phase := .DEAL }
  else
    .ok { s with
      deck := newDeck
      reveal_tokens_with_proofs := List.replicate s.numCards (List.replicate s.numPlayers none)
      turn := (s.turn + 1) % s.numPlayers }

/-- The token-storing loops of `Contract::deal` (lines 691-696) and
`Contract::reveal` (lines 871-876): for each `(card index, token)` pair the
deck entry is read (a panic — `Fatal` — when out of range), the external
`verify_reveal` oracle is consulted, and the token is stored at
`[card_idx][player]`. -/
def applyTokens (verify : Nat → Nat → Bool) (player : Nat) :
    List (Nat × Nat) → GameState → Except Err GameState
  | [], s => .ok s
  | (cardIdx, tok) :: rest, s =>
    if cardIdx < s.deck.length then
      if verify cardIdx tok then
        applyTokens verify player rest (s.set_reveal_token cardIdx player tok)
      else .error .CryptoVerificationError
    else .error .Fatal

/-- The completion check of `Contract::deal` (lines 700-703): once every
seat's flag is set the phase moves to `BLIND` and the turn to `dealer+1`. -/
def dealFinish (s2 : GameState) : GameState :=
  if s2.all_players_revealed then
    { s2 with phase := .BLIND, turn := (s2.dealer + 1) % s2.numPlayers }
  else s2

/-- `Contract::deal` (lines 664-707).  The source's index-validation block is
commented out ("TODO checks later"), so any `(card index, token)` pairs that
verify are accepted, `zip`-truncated to the shorter list, and the caller's
revealed flag is then set unconditionally.  There is no check of
`revealed_players[player]`. -/
def deal (s : GameState) (player : Nat) (card_indices toks : List Nat)
    (verify : Nat → Nat → Bool) : Except Err GameState :=
  if s.phase ≠ .DEAL then .error .StateError
  else if s.numPlayers ≤ player then .error .AuthorizationError
  else
    match applyTokens verify player (card_indices.zip toks) s with
    | .error e => .error e
    | .ok s1 => .ok (dealFinish { s1 with revealed_players := s1.revealed_players.set player true })

/-- `Contract::blind` (lines 710-739).  Posts the little blind when the acting
seat is `dealer+1 mod N`, else the big blind (all-in when the balance is
short), and moves to `BET0` when the acting seat is `dealer+3 mod N`.  The
source never modifies `state.turn` here. -/
def blindAmountFor (s : GameState) : Nat :=
  if s.turn = (s.dealer + 1) % s.numPlayers then littleBlindAmount else bigBlindAmount

/-- The bet/ante effect of `Contract::blind` (lines 723-731): post the blind,
or go all-in (ante := balance) when the balance is short. -/
def blindPost (s : GameState) (player : Nat) : GameState :=
  if s.balances.getD player 0 < blindAmountFor s then
    { s with bets := s.bets.set player .AllIn, ante := s.balances.getD player 0 }
  else
    { s with bets := s.bets.set player (.In (blindAmountFor s)), ante := blindAmountFor s }

def blind (s : GameState) (player : Nat) : Except Err GameState :=
  if s.phase ≠ .BLIND then .error .StateError
  else if s.numPlayers ≤ player then .error .AuthorizationError
  else if s.turn ≠ player then .error .AuthorizationError
  else if s.turn = (s.dealer + 3) % s.numPlayers then .ok { blindPost s player with phase := .BET0 }
  else .ok (blindPost s player)

/-- `matches!(state.phase, Phase::BET0 | Phase::BET1 | Phase::BET2 | Phase::BET3)`. -/
def isBetPhase : Phase → Bool
  | .BET0 => true
  | .BET1 => true
  | .BET2 => true
  | .BET3 => true
  | _ => false

/-- The action match of `Contract::bet` (lines 756-797): exactly one of the
five bet flags must be set; each arm checks its `player_can_*` precondition
and applies the bet-state effect. -/
def betAction (s : GameState) (player : Nat) (call check all_in fold : Bool)
    (raise : Option Nat) : Except Err GameState :=
  match call, check, all_in, fold, raise with
  | true, false, false, false, none =>
    if s.player_can_call then
      .ok { s with
        bets := s.bets.set player (.In s.ante)
        checks := List.replicate s.numPlayers false }
    else .error .ValidationError
  | false, true, false, false, none =>
    if s.player_can_check then .ok { s with checks := s.checks.set player true }
    else .error .ValidationError
  | false, false, true, false, none =>
    if s.player_can_all_in then
      let newAnte := if s.ante < s.balances.getD player 0 then s.balances.getD player 0 else s.ante
      .ok { s with
        bets := s.bets.set player .AllIn
        ante := newAnte
        checks := List.replicate s.numPlayers false }
    else .error .ValidationError
  | false, false, false, true, none =>
    if s.player_can_fold then
      match s.bets.getD player (.In 0) with
      | .In a =>
        .ok { s with bets := s.bets.set player (.Folded a), checks := s.checks.set player false }
      | .AllIn =>
        .ok { s with
          bets := s.bets.set player (.Folded (s.balances.getD player 0))
          checks := s.checks.set player false }
      | .Folded _ => .error .Fatal
    else .error .ValidationError
  | false, false, false, false, some raiseAmount =>
    if s.player_can_raise then
      if s.ante < raiseAmount then
        if raiseAmount ≤ s.balances.getD player 0 then
          .ok { s with
            bets := s.bets.set player (.In raiseAmount)
            ante := raiseAmount
            checks := List.replicate s.numPlayers false }
        else .error .ValidationError
      else .error .ValidationError
    else .error .ValidationError
  | _, _, _, _, _ => .error .ValidationError

/-- The if/else-if/else block of `Contract::bet` (lines 799-820): the
single-player win check (pot transfer and reset to `SHUFFLE`), the all-checked
phase advance, or the next-player turn move. -/
def betAdvance1 (s : GameState) : Except Err GameState :=
  if s.num_players_in = 1 then
    match s.next_in_player with
    | none => .error .Fatal
    | some winner =>
      match s.transfer_pot winner with
      | none => .error .Fatal
      | some sPot =>
        .ok { sPot with
          phase := .SHUFFLE
          bets := List.replicate sPot.numPlayers (.In 0)
          checks := List.replicate sPot.numPlayers false
          revealed_players := List.replicate sPot.numPlayers false }
  else if s.enough_players_checked then
    match s.phase with
    | .BET0 => .ok { s with phase := .FLOP, checks := List.replicate s.numPlayers false }
    | .BET1 => .ok { s with phase := .TURN, checks := List.replicate s.numPlayers false }
    | .BET2 => .ok { s with phase := .RIVER, checks := List.replicate s.numPlayers false }
    | .BET3 =>
      .ok { s with phase := .SHOWDOWN_REVEAL, checks := List.replicate s.numPlayers false }
    | _ => .error .Fatal
  else
    match s.next_in_player with
    | none => .error .Fatal
    | some j => .ok { s with turn := j }

/-- The post-action block of `Contract::bet` (lines 799-822): `betAdvance1`
followed by the unconditional second
`state.turn = state.next_in_player().expect(..)` of line 822. -/
def betAdvance (s : GameState) : Except Err GameState :=
  match betAdvance1 s with
  | .error e => .error e
  | .ok s2 =>
    match s2.next_in_player with
    | none => .error .Fatal
    | some j => .ok { s2 with turn := j }

/-- `Contract::bet` (lines 743-826). -/
def bet (s : GameState) (player : Nat) (call check all_in fold : Bool) (raise : Option Nat) :
    Except Err GameState :=
  if ¬ isBetPhase s.phase then .error .StateError
  else if s.numPlayers ≤ player then .error .AuthorizationError
  else if s.turn ≠ player then .error .AuthorizationError
  else
    match betAction s player call check all_in fold raise with
    | .error e => .error e
    | .ok s1 => betAdvance s1

/-- The per-phase owed token count of `Contract::reveal` (lines 857-863);
`none` for a phase in which `reveal` panics ("cannot reveal cards in this
phase", lines 840-854). -/
def revealStepCount : Phase → Option Nat
  | .FLOP => some 3
  | .TURN => some 1
  | .RIVER => some 1
  | .SHOWDOWN_REVEAL => some 2
  | _ => none

/-- The phase `reveal` installs on completion of the current reveal step
(through the transient `SHOWDOWN` for `SHOWDOWN_REVEAL`). -/
def revealNextPhase : Phase → Phase
  | .FLOP => .BET1
  | .TURN => .BET2
  | .RIVER => .BET3
  | .SHOWDOWN_REVEAL => .SHUFFLE
  | p => p

/-- The non-showdown completion block of `Contract::reveal` (lines 894-900):
turn returns to the dealer (or the next non-folded seat after a folded
dealer — `expect("next player should exist")` panics when there is none),
and the revealed flags are reset. -/
def postRevealAdvance (s : GameState) : Except Err GameState :=
  if s.player_is_folded s.dealer then
    match ({ s with turn := s.dealer } : GameState).next_in_player with
    | some j =>
      .ok { s with turn := j, revealed_players := List.replicate s.numPlayers false }
    | none => .error .Fatal
  else .ok { s with turn := s.dealer, revealed_players := List.replicate s.numPlayers false }

/-- The completion block of `Contract::reveal` (lines 880-901), applied to the
state with the caller's flag set: when every seat's flag is set the phase
advances (`FLOP`/`TURN`/`RIVER` to the next bet round via `postRevealAdvance`;
`SHOWDOWN_REVEAL` through the transient `SHOWDOWN` into the showdown, then a
new round with the dealer advanced). -/
def revealFinish (score : Nat → Nat) (s2 : GameState) : Except Err GameState :=
  if s2.all_players_revealed then
    match s2.phase with
    | .FLOP => postRevealAdvance { s2 with phase := .BET1 }
    | .TURN => postRevealAdvance { s2 with phase := .BET2 }
    | .RIVER => postRevealAdvance { s2 with phase := .BET3 }
    | .SHOWDOWN_REVEAL =>
      match do_showdown { s2 with phase := .SHOWDOWN } score with
      | .error e => .error e
      | .ok s3 =>
        .ok (GameState.new_round
          { s3 with phase := .SHUFFLE, dealer := (s3.dealer + 1) % s3.numPlayers })
    | _ => .error .Fatal
  else .ok s2

/-- `Contract::reveal` (lines 829-905).  The duplicate check
(`assert!(!state.revealed_players[player])`) precedes everything else after
membership; the owed card *indices* are computed but never enforced (the
source's `_indices_should_reveal` is unused, "TODO check indices"); only the
counts are checked.  On completion of `SHOWDOWN_REVEAL` the showdown runs and
a new round starts with the dealer advanced. -/
def reveal (s : GameState) (player : Nat) (card_indices toks : List Nat)
    (verify : Nat → Nat → Bool) (score : Nat → Nat) : Except Err GameState :=
  if s.numPlayers ≤ player then .error .AuthorizationError
  else if s.revealed_players.getD player false then .error .DuplicateError
  else
    match revealStepCount s.phase with
    | none => .error .StateError
    | some n =>
      if card_indices.length ≠ n then .error .ValidationError
      else if toks.length ≠ n then .error .ValidationError
      else
        match applyTokens verify player (card_indices.zip toks) s with
        | .error e => .error e
        | .ok s1 =>
          revealFinish score { s1 with revealed_players := s1.revealed_players.set player true }

/-! ### Result projections and concrete states used by the theorems below -/

/-- The error of a failed call, `none` for a successful one. -/
def errOf : Except Err GameState → Option Err
  | .ok _ => none
  | .error e => some e

/-- The committed state of a successful call. -/
def stateOf : Except Err GameState → Option GameState
  | .ok s => some s
  | .error _ => none

/-- The phase of a successful call's committed state. -/
def phaseOf : Except Err GameState → Option Phase
  | .ok s => some s.phase
  | .error _ => none

/-- The turn of a successful call's committed state. -/
def turnOf : Except Err GameState → Option Nat
  | .ok s => some s.turn
  | .error _ => none

/-- The revealed flags of a successful call's committed state. -/
def flagsOf : Except Err GameState → Option (List Bool)
  | .ok s => some s.revealed_players
  | .error _ => none

/-- The check flags of a successful call's committed state. -/
def checksOf : Except Err GameState → Option (List Bool)
  | .ok s => some s.checks
  | .error _ => none

/-- The balances of a successful call's committed state. -/
def balancesOf : Except Err GameState → Option (List Nat)
  | .ok s => some s.balances
  | .error _ => none

/-- The stored token at `[cardIdx][playerIdx]` of a successful call's state. -/
def tokenAt (r : Except Err GameState) (cardIdx playerIdx : Nat) : Option (Option Nat) :=
  match r with
  | .ok s => some ((s.reveal_tokens_with_proofs.getD cardIdx []).getD playerIdx none)
  | .error _ => none

/-- A reveal-verification oracle that accepts every token. -/
def vfAll : Nat → Nat → Bool := fun _ _ => true

/-- A hand evaluator giving every seat the score 0. -/
def scZero : Nat → Nat := fun _ => 0

/-- A hand evaluator giving every seat the score 5 (a full tie). -/
def scFive : Nat → Nat := fun _ => 5

/-- All balances zero, as a decidable check. -/
def allZero (l : List Nat) : Bool :=
  l.all (fun x => x == 0)

/-- §8's blind scenario: 4 seats, dealer 0, `BLIND` phase as `deal` leaves it
(turn = dealer+1 = 1), balances 100 each. -/
def stateC1 : GameState :=
  { numPlayers := 4, numCards := 52, phase := .BLIND, turn := 1, dealer := 0
    revealed_players := List.replicate 4 false
    bets := List.replicate 4 (.In 0), ante := 0
    checks := List.replicate 4 false
    balances := [100, 100, 100, 100]
    deck := List.replicate 52 0
    reveal_tokens_with_proofs := List.replicate 52 (List.replicate 4 none) }

/-- `stateC1` after seat 1 posts the little blind. -/
def stateC1After : GameState :=
  { stateC1 with bets := [.In 0, .In 5, .In 0, .In 0], ante := 5 }

/-- 3 seats in `BET0`, nobody folded, no checks yet, turn at seat 0. -/
def stateC2 : GameState :=
  { numPlayers := 3, numCards := 52, phase := .BET0, turn := 0, dealer := 0
    revealed_players := List.replicate 3 false
    bets := List.replicate 3 (.In 0), ante := 0
    checks := List.replicate 3 false
    balances := [0, 0, 0]
    deck := List.replicate 52 0
    reveal_tokens_with_proofs := List.replicate 52 (List.replicate 3 none) }

/-- 2 seats in `DEAL`; seat 0 has already revealed (flag set) and its tokens
for seat 1's hole cards 2 and 3 are stored as `99`. -/
def stateC4 : GameState :=
  { numPlayers := 2, numCards := 52, phase := .DEAL, turn := 0, dealer := 0
    revealed_players := [true, false]
    bets := List.replicate 2 (.In 0), ante := 0
    checks := List.replicate 2 false
    balances := [0, 0]
    deck := List.replicate 52 0
    reveal_tokens_with_proofs :=
      ((List.replicate 52 (List.replicate 2 none)).set 2 [some 99, none]).set 3
        [some 99, none] }

/-- 2 seats in `DEAL`, nobody has revealed yet, no tokens stored. -/
def stateC5 : GameState :=
  { stateC4 with
    revealed_players := [false, false]
    reveal_tokens_with_proofs := List.replicate 52 (List.replicate 2 none) }

/-- 2 seats in `BLIND` (turn = dealer+1 = 1): the shuffle-outside-SHUFFLE input. -/
def stateC7 : GameState :=
  { numPlayers := 2, numCards := 52, phase := .BLIND, turn := 1, dealer := 0
    revealed_players := [false, false]
    bets := List.replicate 2 (.In 0), ante := 0
    checks := List.replicate 2 false
    balances := [0, 0]
    deck := List.replicate 52 0
    reveal_tokens_with_proofs := List.replicate 52 (List.replicate 2 none) }

/-- A replacement deck for the `shuffle_deck` call on `stateC7`. -/
def deckB : List Nat := List.replicate 52 1

/-- 3 seats in `FLOP`, seat 2 folded, seat 0 already revealed: after seat 1
reveals, every non-folded seat has revealed but seat 2's flag is still unset. -/
def stateC8 : GameState :=
  { numPlayers := 3, numCards := 52, phase := .FLOP, turn := 0, dealer := 0
    revealed_players := [true, false, false]
    bets := [.In 0, .In 0, .Folded 0], ante := 0
    checks := List.replicate 3 false
    balances := [0, 0, 0]
    deck := List.replicate 52 0
    reveal_tokens_with_proofs := List.replicate 52 (List.replicate 3 none) }

/-- 2 seats in `FLOP`, seat 0 already revealed: seat 1's reveal completes the
step and the phase advances. -/
def stateC8w : GameState :=
  { numPlayers := 2, numCards := 52, phase := .FLOP, turn := 0, dealer := 0
    revealed_players := [true, false]
    bets := [.In 0, .In 0], ante := 0
    checks := List.replicate 2 false
    balances := [0, 0]
    deck := List.replicate 52 0
    reveal_tokens_with_proofs := List.replicate 52 (List.replicate 2 none) }

/-- 2 non-folded seats at showdown with every token present, stakes `In 4`
each and balances 10 each: the tie input for the winner selection. -/
def stateC9 : GameState :=
  { numPlayers := 2, numCards := 52, phase := .SHOWDOWN, turn := 0, dealer := 0
    revealed_players := [true, true]
    bets := [.In 4, .In 4], ante := 4
    checks := List.replicate 2 false
    balances := [10, 10]
    deck := List.replicate 52 0
    reveal_tokens_with_proofs := List.replicate 52 (List.replicate 2 (some 1)) }

/-- Iterating `next_in_player`, taking each returned seat as the new turn:
the list of the first `m` visited seats starting from turn `t`. -/
def cycleList (s : GameState) : Nat → Nat → List Nat
  | _, 0 => []
  | t, m + 1 =>
    match ({ s with turn := t } : GameState).next_in_player with
    | some j => j :: cycleList s j m
    | none => []

/-- `stateC9` after the pot (4 from seat 0) moves to seat 1. -/
def stateC9Won : GameState :=
  { stateC9 with balances := [6, 14] }

/-- `stateC2` after seat 0's check: the check flag set and the turn doubly
advanced to seat 2. -/
def stateC2After : GameState :=
  { stateC2 with checks := [true, false, false], turn := 2 }

/-- The offsets (in `1..n`, counted from seat `t`) of the non-folded seats:
`e ∈ offIn bets n t` iff seat `(t+e) % n` is not folded.  The analysis tool
for `next_in_player`: the first element is the offset `next_in_player` returns
from turn `t`, and walking the list walks the turn cycle. -/
def offIn (bets : List BetAmount) (n t : Nat) : List Nat :=
  (List.range' 1 n).filter (fun e => ! isFoldedAt bets ((t + e) % n))

/-- 3 seats with seat 1 folded: a concrete cycle input. -/
def stateC10 : GameState :=
  { numPlayers := 3, numCards := 52, phase := .BET0, turn := 0, dealer := 0
    revealed_players := List.replicate 3 false
    bets := [.In 0, .Folded 0, .In 0], ante := 0
    checks := List.replicate 3 false
    balances := [0, 0, 0]
    deck := List.replicate 52 0
    reveal_tokens_with_proofs := List.replicate 52 (List.replicate 3 none) }

/-- The strengthened all-zero-chips invariant: no entry point ever credits a
balance, so the ante, every balance and every recorded bet amount stay 0. -/
def ZeroInv (s : GameState) : Prop :=
  s.ante = 0 ∧ (∀ x ∈ s.balances, x = 0) ∧ (∀ b ∈ s.bets, b.amt = 0)

/-- One step of an in-progress game: some entry point of the contract applied
to some caller and arguments succeeds.  Oracle outcomes (shuffle and reveal
verification, hand scores) are quantified, so this covers every behaviour the
contract can exhibit. -/
inductive Step : GameState → GameState → Prop
  | init_deck_step (s s' : GameState) (p : Nat) (d : List Nat) :
    init_deck s p d = .ok s' → Step s s'
  | shuffle_step (s s' : GameState) (p : Nat) (d : List Nat) (v : Bool) :
    shuffle_deck s p d v = .ok s' → Step s s'
  | deal_step (s s' : GameState) (p : Nat) (ci toks : List Nat) (vf : Nat → Nat → Bool) :
    deal s p ci toks vf = .ok s' → Step s s'
  | blind_step (s s' : GameState) (p : Nat) :
    blind s p = .ok s' → Step s s'
  | bet_step (s s' : GameState) (p : Nat) (c ch ai f : Bool) (r : Option Nat) :
    bet s p c ch ai f r = .ok s' → Step s s'
  | reveal_step (s s' : GameState) (p : Nat) (ci toks : List Nat) (vf : Nat → Nat → Bool)
      (sc : Nat → Nat) :
    reveal s p ci toks vf sc = .ok s' → Step s s'

/-- The in-progress states reachable from `start_game`'s initial state by
successful entry-point calls. -/
inductive Reachable : GameState → Prop
  | start (n c : Nat) : Reachable (GameState.new n c)
  | step {s s' : GameState} : Reachable s → Step s s' → Reachable s'

/-! ## Theorems -/

/-- Claim C1.  On §8's blind scenario (4 seats, dealer 0, `BLIND` entered with
turn = dealer+1 = 1): seat 1's `blind` succeeds and posts the little blind 5,
but leaves `turn = 1` and `phase = BLIND`, and seat 2's subsequent `blind`
fails the turn check — `blind` never advances `turn`, so the big blind is
never posted and the `turn == dealer+3` transition to `BET0` is unreachable
for 4 seats. -/
theorem blind_never_advances_turn :
    stateOf (blind stateC1 1) = some stateC1After ∧
    stateC1After.turn = 1 ∧
    stateC1After.phase = Phase.BLIND ∧
    stateC1After.ante = 5 ∧
    errOf (blind stateC1After 2) = some Err.AuthorizationError := by
  refine ⟨by decide, rfl, rfl, rfl, rfl⟩

/-- Claim C2.  In `BET0` with 3 non-folded seats and no checks, seat 0's
`check` succeeds; afterwards 3 seats are still in and only 1 has checked, yet
the resulting turn is 2, not 1: the turn is advanced twice (once in the
"move to next player" branch of line 819, once more by the unconditional
`state.turn = state.next_in_player()` of line 822), skipping seat 1. -/
theorem bet_advances_turn_twice :
    errOf (bet stateC2 0 false true false false none) = none ∧
    turnOf (bet stateC2 0 false true false false none) = some 2 ∧
    checksOf (bet stateC2 0 false true false false none) = some [true, false, false] ∧
    stateC2.num_players_in = 3 := by
  refine ⟨rfl, rfl, rfl, rfl⟩

/-- Claim C4.  Seat 0's `revealed_players` flag is already set in `stateC4`
and its token for card 2 is stored as `99`, yet a second `deal` call by
seat 0 succeeds (no `DuplicateError`: `deal` never checks the flag) and
silently overwrites the stored token with `7`. -/
theorem deal_accepts_duplicate :
    stateC4.revealed_players = [true, false] ∧
    (stateC4.reveal_tokens_with_proofs.getD 2 []).getD 0 none = some 99 ∧
    errOf (deal stateC4 0 [2, 3] [7, 8] vfAll) = none ∧
    tokenAt (deal stateC4 0 [2, 3] [7, 8] vfAll) 2 0 = some (some 7) ∧
    flagsOf (deal stateC4 0 [2, 3] [7, 8] vfAll) = some [true, false] := by
  refine ⟨rfl, rfl, rfl, by decide, by decide⟩

/-- Claim C5.  In `DEAL` with 2 seats, seat 0 owes 2 hole-card tokens for
seat 1, yet a `deal` call supplying no tokens at all succeeds and sets
seat 0's revealed flag: the flag is set unconditionally, not only when every
owed token has been supplied (the index checks are commented out in the
source). -/
theorem deal_sets_flag_without_tokens :
    stateC5.revealed_players = [false, false] ∧
    errOf (deal stateC5 0 [] [] vfAll) = none ∧
    flagsOf (deal stateC5 0 [] [] vfAll) = some [true, false] ∧
    tokenAt (deal stateC5 0 [] [] vfAll) 2 0 = some none ∧
    tokenAt (deal stateC5 0 [] [] vfAll) 3 0 = some none := by
  refine ⟨rfl, rfl, by decide, by decide, by decide⟩

/-- Claim C7.  `shuffle_deck` never checks the phase: in `BLIND` (2 seats,
turn = 1 = dealer+1) a shuffle by seat 1 succeeds, and since the advanced turn
wraps to the dealer it moves the phase from `BLIND` to `DEAL` — an edge that
is not in the §4.2 transition graph. -/
theorem shuffle_changes_phase_outside_shuffle :
    stateC7.phase = Phase.BLIND ∧
    errOf (shuffle_deck stateC7 1 deckB true) = none ∧
    phaseOf (shuffle_deck stateC7 1 deckB true) = some Phase.DEAL := by
  refine ⟨rfl, rfl, by decide⟩

/-- Claim C8, counterexample.  In `FLOP` with seat 2 folded and seat 0 already
revealed, seat 1's reveal succeeds, after which every non-folded seat (0 and
1) has revealed — yet the phase stays `FLOP`: `all_players_revealed` requires
the folded seat 2's flag too, so the step does not advance once all non-folded
seats have revealed, contrary to the claim. -/
theorem reveal_waits_for_folded_seat :
    stateC8.player_is_folded 2 = true ∧
    stateC8.player_is_folded 0 = false ∧
    stateC8.player_is_folded 1 = false ∧
    errOf (reveal stateC8 1 [6, 7, 8] [5, 5, 5] vfAll scZero) = none ∧
    flagsOf (reveal stateC8 1 [6, 7, 8] [5, 5, 5] vfAll scZero) = some [true, true, false] ∧
    phaseOf (reveal stateC8 1 [6, 7, 8] [5, 5, 5] vfAll scZero) = some Phase.FLOP := by
  refine ⟨rfl, rfl, rfl, rfl, by decide, by decide⟩

/-- Claim C9, counterexample.  Two non-folded seats tie at score 5:
`showdownWinner` (the `reduce` of line 423) picks seat 1, the *last* maximal
element, while the claim's first-maximal rule picks seat 0; on `stateC9` the
pot accordingly moves to seat 1 ([10,10] becomes [6,14]). -/
theorem showdown_tie_goes_to_last :
    showdownWinner [(0, 5), (1, 5)] = some (1, 5) ∧
    firstMaxBySpec [(0, 5), (1, 5)] = some (0, 5) ∧
    (showdownWinner [(0, 5), (1, 5)] == firstMaxBySpec [(0, 5), (1, 5)]) = false ∧
    stateC9.balances = [10, 10] ∧
    balancesOf (do_showdown stateC9 scFive) = some [6, 14] := by
  refine ⟨rfl, rfl, rfl, rfl, by decide⟩

/-- A left fold with the tie-keeps-accumulator-only-on-strict-greater rule
computes the last maximal element: the bridge between `reduce` (a `foldl`)
and the right-recursive `lastMaxBySpec`. -/
theorem foldl_max_eq_lastMax (t : List (Nat × Nat)) :
    ∀ a : Nat × Nat,
      t.foldl (fun a b => if a.2 > b.2 then a else b) a =
        match lastMaxBySpec t with
        | none => a
        | some w => if a.2 > w.2 then a else w := by
  induction t with
  | nil => intro a; rfl
  | cons b t ih =>
    intro a
    simp only [List.foldl_cons, lastMaxBySpec]
    rw [ih]
    cases h : lastMaxBySpec t with
    | none => simp
    | some w =>
      simp only []
      split_ifs <;> simp_all <;> omega

/-- Claim C9, amended.  The showdown winner selection of `do_showdown`
(line 423) returns the *last* maximal-scoring element of the hands list in
iteration (seat-index) order: with a strictly greatest score that seat wins,
and a tie among several maximal seats goes to the highest-indexed one. -/
theorem showdownWinner_eq_lastMax (hands : List (Nat × Nat)) :
    showdownWinner hands = lastMaxBySpec hands := by
  cases hands with
  | nil => rfl
  | cons h t =>
    simp only [showdownWinner, lastMaxBySpec, foldl_max_eq_lastMax]
    cases hw : lastMaxBySpec t with
    | none => rfl
    | some w => simp

theorem getD_set_ne (l : List Nat) (i j v d : Nat) (h : i ≠ j) :
    (l.set i v).getD j d = l.getD j d := by
  simp [List.getD_eq_getElem?_getD, List.getElem?_set_ne h]

theorem sum_set_getD (l : List Nat) :
    ∀ (i v : Nat), i < l.length → (l.set i v).sum + l.getD i 0 = l.sum + v := by
  induction l with
  | nil => intro i v h; simp at h
  | cons x xs ih =>
    intro i v h
    cases i with
    | zero => simp [List.set, List.getD]; omega
    | succ n =>
      simp only [List.set, List.sum_cons, List.getD_cons_succ]
      have := ih n v (by simpa using h)
      omega

theorem moveChips_sum (bal : List Nat) (winner loser a : Nat)
    (hw : winner < bal.length) (hl : loser < bal.length) (hne : loser ≠ winner)
    (ha : a ≤ bal.getD loser 0) :
    ((bal.set winner (bal.getD winner 0 + a)).set loser (bal.getD loser 0 - a)).sum
      = bal.sum := by
  have e1 := sum_set_getD bal winner (bal.getD winner 0 + a) hw
  have e2 := sum_set_getD (bal.set winner (bal.getD winner 0 + a)) loser
    (bal.getD loser 0 - a) (by rw [List.length_set]; exact hl)
  have e3 : (bal.set winner (bal.getD winner 0 + a)).getD loser 0 = bal.getD loser 0 :=
    getD_set_ne bal winner loser _ 0 (fun hh => hne hh.symm)
  rw [e3] at e2
  omega

theorem moveAllChips_sum (bal : List Nat) (winner loser : Nat)
    (hw : winner < bal.length) (hl : loser < bal.length) (hne : loser ≠ winner) :
    ((bal.set winner (bal.getD winner 0 + bal.getD loser 0)).set loser 0).sum = bal.sum := by
  have e1 := sum_set_getD bal winner (bal.getD winner 0 + bal.getD loser 0) hw
  have e2 := sum_set_getD (bal.set winner (bal.getD winner 0 + bal.getD loser 0)) loser
    0 (by rw [List.length_set]; exact hl)
  have e3 : (bal.set winner (bal.getD winner 0 + bal.getD loser 0)).getD loser 0
      = bal.getD loser 0 :=
    getD_set_ne bal winner loser _ 0 (fun hh => hne hh.symm)
  rw [e3] at e2
  omega

theorem transferPotAux_sum :
    ∀ (bets : List BetAmount) (start : Nat) (bal bal' : List Nat) (winner : Nat),
      winner < bal.length → start + bets.length ≤ bal.length →
      transferPotAux winner start bets bal = some bal' → bal'.sum = bal.sum := by
  intro bets
  induction bets with
  | nil =>
    intro start bal bal' winner _ _ h
    simp only [transferPotAux] at h
    cases h
    rfl
  | cons b rest ih =>
    intro start bal bal' winner hw hlen h
    have hstart : start < bal.length := by
      simp only [List.length_cons] at hlen; omega
    have hrest : start + 1 + rest.length ≤ bal.length := by
      simp only [List.length_cons] at hlen; omega
    cases b with
    | In a =>
      simp only [transferPotAux] at h
      by_cases hsw : start = winner
      · rw [if_pos hsw] at h
        exact ih (start + 1) bal bal' winner hw hrest h
      · rw [if_neg hsw] at h
        by_cases ha : a ≤ bal.getD start 0
        · rw [if_pos ha] at h
          have hlen2 : ((bal.set winner (bal.getD winner 0 + a)).set start
              (bal.getD start 0 - a)).length = bal.length := by
            rw [List.length_set, List.length_set]
          have := ih (start + 1) _ bal' winner (by rw [hlen2]; exact hw)
            (by rw [hlen2]; exact hrest) h
          rw [this, moveChips_sum bal winner start a hw hstart hsw ha]
        · rw [if_neg ha] at h
          cases h
    | AllIn =>
      simp only [transferPotAux] at h
      by_cases hsw : start = winner
      · rw [if_pos hsw] at h
        exact ih (start + 1) bal bal' winner hw hrest h
      · rw [if_neg hsw] at h
        have hlen2 : ((bal.set winner (bal.getD winner 0 + bal.getD start 0)).set start
            0).length = bal.length := by
          rw [List.length_set, List.length_set]
        have := ih (start + 1) _ bal' winner (by rw [hlen2]; exact hw)
          (by rw [hlen2]; exact hrest) h
        rw [this, moveAllChips_sum bal winner start hw hstart hsw]
    | Folded a =>
      simp only [transferPotAux] at h
      by_cases hsw : start = winner
      · rw [if_pos hsw] at h
        exact ih (start + 1) bal bal' winner hw hrest h
      · rw [if_neg hsw] at h
        by_cases ha : a ≤ bal.getD start 0
        · rw [if_pos ha] at h
          have hlen2 : ((bal.set winner (bal.getD winner 0 + a)).set start
              (bal.getD start 0 - a)).length = bal.length := by
            rw [List.length_set, List.length_set]
          have := ih (start + 1) _ bal' winner (by rw [hlen2]; exact hw)
            (by rw [hlen2]; exact hrest) h
          rw [this, moveChips_sum bal winner start a hw hstart hsw ha]
        · rw [if_neg ha] at h
          cases h


theorem nipAux_lt (bets : List BetAmount) (n : Nat) (hn : 0 < n) :
    ∀ (fuel i j : Nat), i < n → nipAux bets n fuel i = some j → j < n := by
  intro fuel
  induction fuel with
  | zero => intro i j _ h; cases h
  | succ m ih =>
    intro i j hi h
    simp only [nipAux] at h
    by_cases hf : isFoldedAt bets i
    · rw [if_pos hf] at h
      exact ih ((i + 1) % n) j (Nat.mod_lt _ hn) h
    · rw [if_neg hf] at h
      cases h
      exact hi

theorem next_in_player_lt (s : GameState) (hn : 0 < s.numPlayers) (j : Nat)
    (h : s.next_in_player = some j) : j < s.numPlayers :=
  nipAux_lt s.bets s.numPlayers hn s.numPlayers ((s.turn + 1) % s.numPlayers) j
    (Nat.mod_lt _ hn) h

theorem betAction_fields (s : GameState) (p : Nat) (c ch ai f : Bool) (r : Option Nat)
    (s1 : GameState) (h : betAction s p c ch ai f r = .ok s1) :
    s1.balances = s.balances ∧ s1.bets.length = s.bets.length ∧
      s1.numPlayers = s.numPlayers := by
  unfold betAction at h
  repeat' split at h
  all_goals cases h
  all_goals exact ⟨rfl, by simp [List.length_set], rfl⟩


theorem transfer_pot_sum (s : GameState) (winner : Nat) (s' : GameState)
    (hw : winner < s.balances.length) (hb : s.bets.length ≤ s.balances.length)
    (h : s.transfer_pot winner = some s') :
    s'.balances.sum = s.balances.sum := by
  unfold GameState.transfer_pot at h
  split at h
  · cases h
    exact transferPotAux_sum s.bets 0 s.balances _ winner hw (by omega) (by assumption)
  · cases h

theorem betAdvance1_sum (s s2 : GameState) (hn : 0 < s.numPlayers)
    (hb : s.bets.length = s.numPlayers) (hbal : s.balances.length = s.numPlayers)
    (h : betAdvance1 s = .ok s2) : s2.balances.sum = s.balances.sum := by
  unfold betAdvance1 at h
  split at h
  · split at h
    · cases h
    · rename_i winner hwin
      split at h
      · cases h
      · rename_i sPot hPot
        cases h
        simp only []
        exact transfer_pot_sum s winner sPot
          (by rw [hbal]; exact next_in_player_lt s hn winner hwin)
          (by omega) hPot
  · split at h
    · split at h <;> (try cases h) <;> rfl
    · split at h
      · cases h
      · cases h
        rfl

theorem betAdvance_sum (s s' : GameState) (hn : 0 < s.numPlayers)
    (hb : s.bets.length = s.numPlayers) (hbal : s.balances.length = s.numPlayers)
    (h : betAdvance s = .ok s') : s'.balances.sum = s.balances.sum := by
  unfold betAdvance at h
  split at h
  · cases h
  · rename_i s2 h2
    split at h
    · cases h
    · cases h
      exact betAdvance1_sum s s2 hn hb hbal h2

theorem chip_conservation :
    (∀ (s : GameState) (winner : Nat) (s' : GameState),
      winner < s.balances.length → s.bets.length ≤ s.balances.length →
      s.transfer_pot winner = some s' → s'.balances.sum = s.balances.sum) ∧
    (∀ (s : GameState) (p : Nat) (c ch ai f : Bool) (r : Option Nat) (s' : GameState),
      s.bets.length = s.numPlayers → s.balances.length = s.numPlayers →
      bet s p c ch ai f r = .ok s' → s'.balances.sum = s.balances.sum) := by
  constructor
  · exact transfer_pot_sum
  · intro s p c ch ai f r s' hb hbal h
    unfold bet at h
    split at h
    · cases h
    · split at h
      · cases h
      · split at h
        · cases h
        · rename_i hphase hp hturn
          split at h
          · cases h
          · rename_i s1 h1
            have hf := betAction_fields s p c ch ai f r s1 h1
            have hn : 0 < s.numPlayers := by omega
            have := betAdvance_sum s1 s' (by rw [hf.2.2]; exact hn)
              (by rw [hf.2.1, hf.2.2]; exact hb)
              (by rw [hf.1, hf.2.2]; exact hbal) h
            rw [this, hf.1]

/-- Closed instances of both parts of `chip_conservation`: the showdown pot
transfer on `stateC9` and seat 0's check on `stateC2` each preserve the
balance sum. -/
theorem chip_conservation_witness :
    stateC9Won.balances.sum = stateC9.balances.sum ∧
    stateC2After.balances.sum = stateC2.balances.sum :=
  ⟨chip_conservation.1 stateC9 1 stateC9Won (by decide) (by decide) rfl,
   chip_conservation.2 stateC2 0 false true false false none stateC2After rfl rfl rfl⟩

theorem applyTokens_fields (vf : Nat → Nat → Bool) (p : Nat) :
    ∀ (l : List (Nat × Nat)) (s s1 : GameState), applyTokens vf p l s = .ok s1 →
      s1.numPlayers = s.numPlayers ∧ s1.numCards = s.numCards ∧ s1.phase = s.phase ∧
      s1.turn = s.turn ∧ s1.dealer = s.dealer ∧
      s1.revealed_players = s.revealed_players ∧ s1.bets = s.bets ∧ s1.ante = s.ante ∧
      s1.checks = s.checks ∧ s1.balances = s.balances ∧ s1.deck = s.deck := by
  intro l
  induction l with
  | nil =>
    intro s s1 h
    cases h
    exact ⟨rfl, rfl, rfl, rfl, rfl, rfl, rfl, rfl, rfl, rfl, rfl⟩
  | cons pr rest ih =>
    intro s s1 h
    obtain ⟨cardIdx, tok⟩ := pr
    simp only [applyTokens] at h
    split at h
    · split at h
      · simpa [GameState.set_reveal_token] using ih (s.set_reveal_token cardIdx p tok) s1 h
      · cases h
    · cases h

theorem postRevealAdvance_phase (s s' : GameState) (h : postRevealAdvance s = .ok s') :
    s'.phase = s.phase := by
  unfold postRevealAdvance at h
  split at h
  · split at h
    · cases h
      rfl
    · cases h
  · cases h
    rfl

theorem transfer_pot_fields (s : GameState) (w : Nat) (s' : GameState)
    (h : s.transfer_pot w = some s') :
    s'.numPlayers = s.numPlayers ∧ s'.numCards = s.numCards ∧ s'.phase = s.phase ∧
    s'.turn = s.turn ∧ s'.dealer = s.dealer ∧
    s'.revealed_players = s.revealed_players ∧ s'.bets = s.bets ∧ s'.ante = s.ante ∧
    s'.checks = s.checks ∧ s'.deck = s.deck := by
  unfold GameState.transfer_pot at h
  split at h
  · cases h
    exact ⟨rfl, rfl, rfl, rfl, rfl, rfl, rfl, rfl, rfl, rfl⟩
  · cases h

theorem do_showdown_phase (s : GameState) (sc : Nat → Nat) (s3 : GameState)
    (h : do_showdown s sc = .ok s3) : s3.phase = s.phase := by
  unfold do_showdown at h
  split at h
  · split at h
    · split at h
      · cases h
        exact (transfer_pot_fields _ _ _ (by assumption)).2.2.1
      · cases h
    · cases h
  · cases h

theorem revealFinish_phase (sc : Nat → Nat) (s2 s' : GameState)
    (h : revealFinish sc s2 = .ok s') :
    s'.phase = (if s2.all_players_revealed then revealNextPhase s2.phase else s2.phase) := by
  unfold revealFinish at h
  split at h
  · rename_i hall
    rw [if_pos hall]
    split at h
    all_goals rename_i hphase
    · rw [hphase, postRevealAdvance_phase _ _ h]
      rfl
    · rw [hphase, postRevealAdvance_phase _ _ h]
      rfl
    · rw [hphase, postRevealAdvance_phase _ _ h]
      rfl
    · split at h
      · cases h
      · rename_i s3 h3
        cases h
        rw [hphase]
        rfl
    · cases h
  · rename_i hall
    cases h
    rw [if_neg hall]

/-- Claim C8, amended.  A successful `reveal` advances the phase exactly when
every seat's revealed flag — folded seats' included — is set after the
caller's flag is set; otherwise the phase is unchanged. -/
theorem reveal_gates_on_all_seats (s : GameState) (p : Nat) (ci toks : List Nat)
    (vf : Nat → Nat → Bool) (sc : Nat → Nat)
    (h : errOf (reveal s p ci toks vf sc) = none) :
    phaseOf (reveal s p ci toks vf sc) =
      some (if allTrue (s.revealed_players.set p true) then revealNextPhase s.phase
            else s.phase) := by
  cases hr : reveal s p ci toks vf sc with
  | error e => rw [hr] at h; cases h
  | ok s' =>
    simp only [phaseOf, Option.some_inj]
    unfold reveal at hr
    split at hr
    · cases hr
    · split at hr
      · cases hr
      · split at hr
        · cases hr
        · rename_i n hcount
          split at hr
          · cases hr
          · split at hr
            · cases hr
            · split at hr
              · cases hr
              · rename_i s1 h1
                have hf := applyTokens_fields vf p (ci.zip toks) s s1 h1
                have := revealFinish_phase sc _ s' hr
                rw [this]
                have e1 : ({ s1 with revealed_players := s1.revealed_players.set p true }
                    : GameState).all_players_revealed
                    = allTrue (s.revealed_players.set p true) := by
                  simp only [GameState.all_players_revealed]
                  rw [hf.2.2.2.2.2.1]
                have e2 : ({ s1 with revealed_players := s1.revealed_players.set p true }
                    : GameState).phase = s.phase := hf.2.2.1
                rw [e1, e2]

/-- Closed instance of `reveal_gates_on_all_seats`: on `stateC8w` seat 1's
reveal completes the flags and the phase advances from `FLOP` to `BET1`. -/
theorem reveal_gates_on_all_seats_witness :
    phaseOf (reveal stateC8w 1 [4, 5, 6] [9, 9, 9] vfAll scZero) =
      some (if allTrue (stateC8w.revealed_players.set 1 true) then
        revealNextPhase stateC8w.phase
      else stateC8w.phase) :=
  reveal_gates_on_all_seats stateC8w 1 [4, 5, 6] [9, 9, 9] vfAll scZero (by decide)

theorem mem_set_cases {α : Type} (l : List α) (i : Nat) (v : α) (P : α → Prop)
    (hl : ∀ x ∈ l, P x) (hv : P v) : ∀ x ∈ l.set i v, P x := by
  intro x hx
  rcases List.mem_or_eq_of_mem_set hx with h | h
  · exact hl x h
  · rw [h]; exact hv

theorem getD_prop {α : Type} (l : List α) (i : Nat) (d : α) (P : α → Prop)
    (hl : ∀ x ∈ l, P x) (hd : P d) : P (l.getD i d) := by
  rw [List.getD_eq_getElem?_getD]
  cases h : l[i]? with
  | none => exact hd
  | some x => exact hl x (List.getElem?_mem h)

theorem allZero_iff (l : List Nat) : allZero l = true ↔ ∀ x ∈ l, x = 0 := by
  simp [allZero, List.all_eq_true]

theorem transferPotAux_zero (w : Nat) :
    ∀ (bets : List BetAmount) (start : Nat) (bal bal' : List Nat),
      (∀ b ∈ bets, b.amt = 0) → (∀ x ∈ bal, x = 0) →
      transferPotAux w start bets bal = some bal' → ∀ x ∈ bal', x = 0 := by
  intro bets
  induction bets with
  | nil =>
    intro start bal bal' _ hbal h
    cases h
    exact hbal
  | cons b rest ih =>
    intro start bal bal' hbets hbal h
    have hrest : ∀ x ∈ rest, BetAmount.amt x = 0 := fun x hx => hbets x (List.mem_cons_of_mem _ hx)
    have hW : bal.getD w 0 = 0 := getD_prop bal w 0 _ hbal rfl
    have hL : bal.getD start 0 = 0 := getD_prop bal start 0 _ hbal rfl
    cases b with
    | In a =>
      have ha : a = 0 := hbets (.In a) (List.mem_cons_self _ _)
      simp only [transferPotAux] at h
      split at h
      · exact ih (start + 1) bal bal' hrest hbal h
      · split at h
        · refine ih (start + 1) _ bal' hrest ?_ h
          refine mem_set_cases _ _ _ _ (mem_set_cases _ _ _ _ hbal ?_) ?_
          · omega
          · omega
        · cases h
    | AllIn =>
      simp only [transferPotAux] at h
      split at h
      · exact ih (start + 1) bal bal' hrest hbal h
      · refine ih (start + 1) _ bal' hrest ?_ h
        refine mem_set_cases _ _ _ _ (mem_set_cases _ _ _ _ hbal ?_) ?_
        · omega
        · rfl
    | Folded a =>
      have ha : a = 0 := hbets (.Folded a) (List.mem_cons_self _ _)
      simp only [transferPotAux] at h
      split at h
      · exact ih (start + 1) bal bal' hrest hbal h
      · split at h
        · refine ih (start + 1) _ bal' hrest ?_ h
          refine mem_set_cases _ _ _ _ (mem_set_cases _ _ _ _ hbal ?_) ?_
          · omega
          · omega
        · cases h

theorem transfer_pot_zero (s : GameState) (w : Nat) (s' : GameState)
    (hbets : ∀ b ∈ s.bets, b.amt = 0) (hbal : ∀ x ∈ s.balances, x = 0)
    (h : s.transfer_pot w = some s') : ∀ x ∈ s'.balances, x = 0 := by
  unfold GameState.transfer_pot at h
  split at h
  · cases h
    exact transferPotAux_zero w s.bets 0 s.balances _ hbets hbal (by assumption)
  · cases h


theorem amt_replicate_zero (n : Nat) : ∀ b ∈ List.replicate n (BetAmount.In 0), b.amt = 0 := by
  intro b hb
  rw [List.eq_of_mem_replicate hb]
  rfl

theorem ZeroInv_new_round (s : GameState) (h : ZeroInv s) : ZeroInv s.new_round := by
  obtain ⟨h1, h2, h3⟩ := h
  exact ⟨rfl, h2, amt_replicate_zero s.numPlayers⟩

theorem ZeroInv_init_deck (s s' : GameState) (p : Nat) (d : List Nat)
    (hinv : ZeroInv s) (h : init_deck s p d = .ok s') : ZeroInv s' := by
  unfold init_deck at h
  split at h
  · cases h
  · split at h
    · cases h
    · split at h
      · cases h
      · cases h
        have := ZeroInv_new_round s hinv
        exact ⟨this.1, this.2.1, this.2.2⟩

theorem ZeroInv_shuffle (s s' : GameState) (p : Nat) (d : List Nat) (v : Bool)
    (hinv : ZeroInv s) (h : shuffle_deck s p d v = .ok s') : ZeroInv s' := by
  unfold shuffle_deck at h
  split at h
  · cases h
  · split at h
    · cases h
    · split at h
      · cases h
      · split at h
        · cases h
          exact ⟨hinv.1, hinv.2.1, hinv.2.2⟩
        · cases h
          exact ⟨hinv.1, hinv.2.1, hinv.2.2⟩

theorem ZeroInv_deal (s s' : GameState) (p : Nat) (ci toks : List Nat)
    (vf : Nat → Nat → Bool) (hinv : ZeroInv s) (h : deal s p ci toks vf = .ok s') :
    ZeroInv s' := by
  unfold deal at h
  split at h
  · cases h
  · split at h
    · cases h
    · split at h
      · cases h
      · rename_i s1 h1
        cases h
        have hf := applyTokens_fields vf p (ci.zip toks) s s1 h1
        unfold dealFinish
        split
        · exact ⟨hf.2.2.2.2.2.2.2.1 ▸ hinv.1, hf.2.2.2.2.2.2.2.2.2.1 ▸ hinv.2.1,
            hf.2.2.2.2.2.2.1 ▸ hinv.2.2⟩
        · exact ⟨hf.2.2.2.2.2.2.2.1 ▸ hinv.1, hf.2.2.2.2.2.2.2.2.2.1 ▸ hinv.2.1,
            hf.2.2.2.2.2.2.1 ▸ hinv.2.2⟩

theorem ZeroInv_blindPost (s : GameState) (p : Nat) (hinv : ZeroInv s) :
    ZeroInv (blindPost s p) := by
  have hbal0 : s.balances.getD p 0 = 0 := getD_prop _ _ _ _ hinv.2.1 rfl
  have hamt : 0 < blindAmountFor s := by
    unfold blindAmountFor littleBlindAmount bigBlindAmount
    split <;> omega
  unfold blindPost
  rw [hbal0, if_pos hamt]
  exact ⟨rfl, hinv.2.1, mem_set_cases _ _ _ _ hinv.2.2 rfl⟩

theorem ZeroInv_blind (s s' : GameState) (p : Nat)
    (hinv : ZeroInv s) (h : blind s p = .ok s') : ZeroInv s' := by
  unfold blind at h
  split at h
  · cases h
  · split at h
    · cases h
    · split at h
      · cases h
      · have hpost := ZeroInv_blindPost s p hinv
        split at h
        · cases h
          exact ⟨hpost.1, hpost.2.1, hpost.2.2⟩
        · cases h
          exact hpost

theorem ZeroInv_betAction (s s1 : GameState) (p : Nat) (c ch ai f : Bool) (r : Option Nat)
    (hinv : ZeroInv s) (h : betAction s p c ch ai f r = .ok s1) : ZeroInv s1 := by
  have hbal0 : s.balances.getD p 0 = 0 := getD_prop _ _ _ _ hinv.2.1 rfl
  have hbet0 : (s.bets.getD p (.In 0)).amt = 0 := getD_prop _ _ _ _ hinv.2.2 rfl
  unfold betAction at h
  split at h
  · -- call
    split at h
    · cases h
      refine ⟨hinv.1, hinv.2.1, mem_set_cases _ _ _ _ hinv.2.2 ?_⟩
      simpa [BetAmount.amt] using hinv.1
    · cases h
  · -- check
    split at h
    · cases h
      exact ⟨hinv.1, hinv.2.1, hinv.2.2⟩
    · cases h
  · -- all in
    split at h
    · cases h
      refine ⟨?_, hinv.2.1, mem_set_cases _ _ _ _ hinv.2.2 rfl⟩
      simp only [hbal0, hinv.1]
      rfl
    · cases h
  · -- fold
    split at h
    · split at h
      · rename_i a heq
        cases h
        refine ⟨hinv.1, hinv.2.1, mem_set_cases _ _ _ _ hinv.2.2 ?_⟩
        rw [heq] at hbet0
        exact hbet0
      · cases h
        refine ⟨hinv.1, hinv.2.1, mem_set_cases _ _ _ _ hinv.2.2 ?_⟩
        simpa [BetAmount.amt] using hbal0
      · cases h
    · cases h
  · -- raise
    rename_i raiseAmount
    split at h
    · split at h
      · split at h
        · rename_i hgt hle
          rw [hinv.1] at hgt
          rw [hbal0] at hle
          omega
        · cases h
      · cases h
    · cases h
  · cases h

theorem ZeroInv_betAdvance1 (s s2 : GameState)
    (hinv : ZeroInv s) (h : betAdvance1 s = .ok s2) : ZeroInv s2 := by
  unfold betAdvance1 at h
  split at h
  · cases hwin : s.next_in_player with
    | none => simp only [hwin] at h; cases h
    | some winner =>
      simp only [hwin] at h
      cases hPot : s.transfer_pot winner with
      | none => simp only [hPot] at h; cases h
      | some sPot =>
        simp only [hPot, Except.ok.injEq] at h
        cases h
        have hz := transfer_pot_zero s winner sPot hinv.2.2 hinv.2.1 hPot
        have hf := transfer_pot_fields s winner sPot hPot
        exact ⟨hf.2.2.2.2.2.2.2.1 ▸ hinv.1, hz, amt_replicate_zero _⟩
  · split at h
    · split at h <;> (try cases h) <;> exact ⟨hinv.1, hinv.2.1, hinv.2.2⟩
    · split at h
      · cases h
      · cases h
        exact ⟨hinv.1, hinv.2.1, hinv.2.2⟩

theorem ZeroInv_betAdvance (s s' : GameState)
    (hinv : ZeroInv s) (h : betAdvance s = .ok s') : ZeroInv s' := by
  unfold betAdvance at h
  split at h
  · cases h
  · rename_i s2 h2
    split at h
    · cases h
    · cases h
      have := ZeroInv_betAdvance1 s s2 hinv h2
      exact ⟨this.1, this.2.1, this.2.2⟩

theorem ZeroInv_bet (s s' : GameState) (p : Nat) (c ch ai f : Bool) (r : Option Nat)
    (hinv : ZeroInv s) (h : bet s p c ch ai f r = .ok s') : ZeroInv s' := by
  unfold bet at h
  split at h
  · cases h
  · split at h
    · cases h
    · split at h
      · cases h
      · split at h
        · cases h
        · rename_i s1 h1
          exact ZeroInv_betAdvance s1 s' (ZeroInv_betAction s s1 p c ch ai f r hinv h1) h

theorem ZeroInv_postRevealAdvance (s s' : GameState)
    (hinv : ZeroInv s) (h : postRevealAdvance s = .ok s') : ZeroInv s' := by
  unfold postRevealAdvance at h
  split at h
  · split at h
    · cases h
      exact ⟨hinv.1, hinv.2.1, hinv.2.2⟩
    · cases h
  · cases h
    exact ⟨hinv.1, hinv.2.1, hinv.2.2⟩

theorem ZeroInv_do_showdown (s s3 : GameState) (sc : Nat → Nat)
    (hinv : ZeroInv s) (h : do_showdown s sc = .ok s3) : ZeroInv s3 := by
  unfold do_showdown at h
  split at h
  · cases hw : showdownWinner
        (((List.range s.numPlayers).filter (fun p => ! s.player_is_folded p)).map
          (fun p => (p, sc p))) with
    | none => simp only [hw] at h; cases h
    | some pr =>
      obtain ⟨winner, scw⟩ := pr
      simp only [hw] at h
      cases hP : s.transfer_pot winner with
      | none => simp only [hP] at h; cases h
      | some sP =>
        simp only [hP, Except.ok.injEq] at h
        cases h
        have hz := transfer_pot_zero s winner s3 hinv.2.2 hinv.2.1 hP
        have hf := transfer_pot_fields s winner s3 hP
        exact ⟨hf.2.2.2.2.2.2.2.1 ▸ hinv.1, hz, hf.2.2.2.2.2.2.1 ▸ hinv.2.2⟩
  · cases h

theorem ZeroInv_revealFinish (sc : Nat → Nat) (s2 s' : GameState)
    (hinv : ZeroInv s2) (h : revealFinish sc s2 = .ok s') : ZeroInv s' := by
  unfold revealFinish at h
  split at h
  · split at h
    · refine ZeroInv_postRevealAdvance _ s' ?_ h
      exact ⟨hinv.1, hinv.2.1, hinv.2.2⟩
    · refine ZeroInv_postRevealAdvance _ s' ?_ h
      exact ⟨hinv.1, hinv.2.1, hinv.2.2⟩
    · refine ZeroInv_postRevealAdvance _ s' ?_ h
      exact ⟨hinv.1, hinv.2.1, hinv.2.2⟩
    · cases h3 : do_showdown
          ({ s2 with phase := Phase.SHOWDOWN } : GameState) sc with
      | error e => simp only [h3] at h; cases h
      | ok s3 =>
        simp only [h3, Except.ok.injEq] at h
        cases h
        have hz := ZeroInv_do_showdown _ s3 sc
          (⟨hinv.1, hinv.2.1, hinv.2.2⟩ : ZeroInv { s2 with phase := Phase.SHOWDOWN }) h3
        exact ZeroInv_new_round _ ⟨hz.1, hz.2.1, hz.2.2⟩
    · cases h
  · cases h
    exact hinv

theorem ZeroInv_reveal (s s' : GameState) (p : Nat) (ci toks : List Nat)
    (vf : Nat → Nat → Bool) (sc : Nat → Nat)
    (hinv : ZeroInv s) (h : reveal s p ci toks vf sc = .ok s') : ZeroInv s' := by
  unfold reveal at h
  split at h
  · cases h
  · split at h
    · cases h
    · split at h
      · cases h
      · split at h
        · cases h
        · split at h
          · cases h
          · split at h
            · cases h
            · rename_i s1 h1
              have hf := applyTokens_fields vf p (ci.zip toks) s s1 h1
              refine ZeroInv_revealFinish sc _ s' ?_ h
              exact ⟨hf.2.2.2.2.2.2.2.1 ▸ hinv.1, hf.2.2.2.2.2.2.2.2.2.1 ▸ hinv.2.1,
                hf.2.2.2.2.2.2.1 ▸ hinv.2.2⟩

theorem ZeroInv_step (s s' : GameState) (hinv : ZeroInv s) (h : Step s s') : ZeroInv s' := by
  cases h with
  | init_deck_step p d hop => exact ZeroInv_init_deck s s' p d hinv hop
  | shuffle_step p d v hop => exact ZeroInv_shuffle s s' p d v hinv hop
  | deal_step p ci toks vf hop => exact ZeroInv_deal s s' p ci toks vf hinv hop
  | blind_step p hop => exact ZeroInv_blind s s' p hinv hop
  | bet_step p c ch ai f r hop => exact ZeroInv_bet s s' p c ch ai f r hinv hop
  | reveal_step p ci toks vf sc hop => exact ZeroInv_reveal s s' p ci toks vf sc hinv hop

theorem ZeroInv_start (n c : Nat) : ZeroInv (GameState.new n c) := by
  refine ⟨rfl, ?_, amt_replicate_zero n⟩
  intro x hx
  exact List.eq_of_mem_replicate hx

theorem reachable_ZeroInv (s : GameState) (h : Reachable s) : ZeroInv s := by
  induction h with
  | start n c => exact ZeroInv_start n c
  | step _ hstep ih => exact ZeroInv_step _ _ ih hstep

/-- Claim C6.  In every reachable in-progress game state every seat's chip
balance is zero: `start_game` initializes all balances to 0, no entry point
credits chips from outside, and `transfer_pot` only redistributes the
recorded stakes, which themselves stay 0. -/
theorem reachable_balances_zero (s : GameState) (h : Reachable s) :
    allZero s.balances = true :=
  (allZero_iff s.balances).mpr (reachable_ZeroInv s h).2.1

/-- Closed instance of `reachable_balances_zero` at the 4-seat initial state. -/
theorem reachable_balances_zero_witness :
    allZero (GameState.new 4 52).balances = true :=
  reachable_balances_zero (GameState.new 4 52) (Reachable.start 4 52)

theorem nipAux_some_iff (bets : List BetAmount) (n : Nat) (hn : 0 < n) :
    ∀ (fuel a j : Nat), a < n →
      (nipAux bets n fuel a = some j ↔
        ∃ d, d < fuel ∧ (∀ x, x < d → isFoldedAt bets ((a + x) % n) = true) ∧
          isFoldedAt bets ((a + d) % n) = false ∧ j = (a + d) % n) := by
  intro fuel
  induction fuel with
  | zero =>
    intro a j ha
    simp [nipAux]
  | succ m ih =>
    intro a j ha
    have hamod : a % n = a := Nat.mod_eq_of_lt ha
    simp only [nipAux]
    by_cases hf : isFoldedAt bets a
    · rw [if_pos hf]
      rw [ih ((a + 1) % n) j (Nat.mod_lt _ hn)]
      constructor
      · rintro ⟨d, hd, hall, hnf, hj⟩
        refine ⟨d + 1, by omega, ?_, ?_, ?_⟩
        · intro x hx
          cases x with
          | zero => simpa [hamod] using hf
          | succ y =>
            have := hall y (by omega)
            rw [Nat.mod_add_mod] at this
            rw [show a + (y + 1) = a + 1 + y by omega]
            exact this
        · rw [Nat.mod_add_mod] at hnf
          rw [show a + (d + 1) = a + 1 + d by omega]
          exact hnf
        · rw [Nat.mod_add_mod] at hj
          rw [show a + (d + 1) = a + 1 + d by omega]
          exact hj
      · rintro ⟨d, hd, hall, hnf, hj⟩
        cases d with
        | zero =>
          exfalso
          rw [Nat.add_zero, hamod] at hnf
          rw [hf] at hnf
          cases hnf
        | succ d' =>
          refine ⟨d', by omega, ?_, ?_, ?_⟩
          · intro x hx
            have := hall (x + 1) (by omega)
            rw [Nat.mod_add_mod, show a + 1 + x = a + (x + 1) by omega]
            exact this
          · rw [Nat.mod_add_mod, show a + 1 + d' = a + (d' + 1) by omega]
            exact hnf
          · rw [Nat.mod_add_mod, show a + 1 + d' = a + (d' + 1) by omega]
            exact hj
    · rw [if_neg hf]
      constructor
      · intro h
        cases h
        refine ⟨0, by omega, by omega, ?_, by rw [Nat.add_zero, hamod]⟩
        rw [Nat.add_zero, hamod]
        simpa using hf
      · rintro ⟨d, hd, hall, hnf, hj⟩
        cases d with
        | zero =>
          rw [Nat.add_zero, hamod] at hj
          rw [hj]
        | succ d' =>
          exfalso
          have := hall 0 (by omega)
          rw [Nat.add_zero, hamod] at this
          rw [this] at hf
          simp at hf

theorem nipAux_none_iff (bets : List BetAmount) (n : Nat) (hn : 0 < n) :
    ∀ (fuel a : Nat), a < n →
      (nipAux bets n fuel a = none ↔
        ∀ d, d < fuel → isFoldedAt bets ((a + d) % n) = true) := by
  intro fuel
  induction fuel with
  | zero =>
    intro a ha
    simp [nipAux]
  | succ m ih =>
    intro a ha
    have hamod : a % n = a := Nat.mod_eq_of_lt ha
    simp only [nipAux]
    by_cases hf : isFoldedAt bets a
    · rw [if_pos hf]
      rw [ih ((a + 1) % n) (Nat.mod_lt _ hn)]
      constructor
      · intro h d hd
        cases d with
        | zero => simpa [hamod] using hf
        | succ y =>
          have := h y (by omega)
          rw [Nat.mod_add_mod] at this
          rw [show a + (y + 1) = a + 1 + y by omega]
          exact this
      · intro h d hd
        have := h (d + 1) (by omega)
        rw [Nat.mod_add_mod, show a + 1 + d = a + (d + 1) by omega]
        exact this
    · rw [if_neg hf]
      constructor
      · intro h
        cases h
      · intro h
        exfalso
        have := h 0 (by omega)
        rw [Nat.add_zero, hamod] at this
        rw [this] at hf
        simp at hf


theorem mem_offIn (bets : List BetAmount) (n t e : Nat) :
    e ∈ offIn bets n t ↔ 1 ≤ e ∧ e ≤ n ∧ isFoldedAt bets ((t + e) % n) = false := by
  simp only [offIn, List.mem_filter, List.mem_range'_1, Bool.not_eq_true']
  exact ⟨fun ⟨⟨h1, h2⟩, h3⟩ => ⟨h1, by omega, h3⟩, fun ⟨h1, h2, h3⟩ => ⟨⟨h1, by omega⟩, h3⟩⟩

theorem offIn_pairwise (bets : List BetAmount) (n t : Nat) :
    List.Pairwise (· < ·) (offIn bets n t) :=
  List.Pairwise.sublist (List.filter_sublist _) (List.pairwise_lt_range' 1 n)

theorem offIn_split (bets : List BetAmount) (n t : Nat) (e : Nat) (he : e ≤ n) :
    offIn bets n t =
      (List.range' 1 e).filter (fun x => ! isFoldedAt bets ((t + x) % n)) ++
      (List.range' (1 + e) (n - e)).filter (fun x => ! isFoldedAt bets ((t + x) % n)) := by
  unfold offIn
  rw [← List.filter_append]
  congr 1
  have := List.range'_append 1 e (n - e) 1
  simp only [Nat.one_mul] at this
  rw [this]
  congr 1
  omega

theorem offIn_head (bets : List BetAmount) (n t : Nat) (e : Nat) (es : List Nat)
    (h : offIn bets n t = e :: es) :
    (1 ≤ e ∧ e ≤ n ∧ isFoldedAt bets ((t + e) % n) = false) ∧
    (List.range' 1 e).filter (fun x => ! isFoldedAt bets ((t + x) % n)) = [e] ∧
    es = (List.range' (1 + e) (n - e)).filter (fun x => ! isFoldedAt bets ((t + x) % n)) := by
  have hmem : e ∈ offIn bets n t := by rw [h]; exact List.mem_cons_self _ _
  have hbounds := (mem_offIn bets n t e).mp hmem
  have hsplit := offIn_split bets n t e hbounds.2.1
  rw [h] at hsplit
  set A := (List.range' 1 e).filter (fun x => ! isFoldedAt bets ((t + x) % n)) with hA
  set B := (List.range' (1 + e) (n - e)).filter (fun x => ! isFoldedAt bets ((t + x) % n))
    with hB
  cases hAc : A with
  | nil =>
    exfalso
    rw [hAc] at hsplit
    simp only [List.nil_append] at hsplit
    have : e ∈ B := by rw [← hsplit]; exact List.mem_cons_self _ _
    rw [hB] at this
    have := (List.mem_filter.mp this).1
    have := (List.mem_range'_1.mp this).1
    omega
  | cons a as =>
    rw [hAc] at hsplit
    simp only [List.cons_append, List.cons.injEq] at hsplit
    obtain ⟨hae, hrest⟩ := hsplit
    subst hae
    have hAle : ∀ x ∈ A, x ≤ e := by
      intro x hx
      rw [hA] at hx
      have := (List.mem_range'_1.mp (List.mem_filter.mp hx).1).2
      omega
    have hApw : List.Pairwise (· < ·) A :=
      List.Pairwise.sublist (List.filter_sublist _) (List.pairwise_lt_range' 1 e)
    have has : as = [] := by
      cases has : as with
      | nil => rfl
      | cons b bs =>
        exfalso
        rw [hAc, has] at hApw
        have hab : e < b := (List.pairwise_cons.mp hApw).1 b (List.mem_cons_self _ _)
        have : b ∈ A := by rw [hAc, has]; exact List.mem_cons_of_mem _ (List.mem_cons_self _ _)
        have := hAle b this
        omega
    subst has
    simp only [List.nil_append] at hrest
    exact ⟨hbounds, rfl, hrest⟩


theorem map_add_filter (p : Nat → Bool) (s m : Nat) :
    (List.range' s m).filter p =
      ((List.range m).filter (fun y => p (s + y))).map (fun y => s + y) := by
  rw [List.range'_eq_map_range, List.filter_map]
  rfl

theorem offIn_step (bets : List BetAmount) (n t e : Nat) (es : List Nat)
    (h : offIn bets n t = e :: es) :
    offIn bets n ((t + e) % n) = es.map (fun x => x - e) ++ [n] := by
  obtain ⟨⟨he1, he2, henf⟩, hA, hes⟩ := offIn_head bets n t e es h
  have hsplit := offIn_split bets n ((t + e) % n) (n - e) (by omega)
  rw [hsplit]
  have hmod : ∀ d : Nat, ((t + e) % n + d) % n = (t + e + d) % n := fun d =>
    Nat.mod_add_mod (t + e) n d
  simp only [map_add_filter] at hA hes ⊢
  congr 1
  · -- part 1: the offsets below the wrap are es shifted down by e
    rw [hes, List.map_map]
    have hpred : ∀ y ∈ List.range (n - e),
        (! isFoldedAt bets (((t + e) % n + (1 + y)) % n)) =
          (! isFoldedAt bets ((t + (1 + e + y)) % n)) := by
      intro y _
      have hidx : ((t + e) % n + (1 + y)) % n = (t + (1 + e + y)) % n := by
        rw [hmod, show t + e + (1 + y) = t + (1 + e + y) by omega]
      rw [hidx]
    rw [List.filter_congr hpred]
    apply List.map_congr_left
    intro y hy
    simp only [Function.comp]
    omega
  · -- part 2: the wrapped-around stretch holds exactly the offset n (seat t+e itself)
    have hpred : ∀ y ∈ List.range (n - (n - e)),
        (! isFoldedAt bets (((t + e) % n + (1 + (n - e) + y)) % n)) =
          (! isFoldedAt bets ((t + (1 + y)) % n)) := by
      intro y _
      have hidx : ((t + e) % n + (1 + (n - e) + y)) % n = (t + (1 + y)) % n := by
        rw [hmod, show t + e + (1 + (n - e) + y) = t + (1 + y) + n by omega,
          Nat.add_mod_right]
      rw [hidx]
    rw [List.filter_congr hpred]
    have hee : n - (n - e) = e := by omega
    rw [hee]
    cases hX : (List.range e).filter (fun y => ! isFoldedAt bets ((t + (1 + y)) % n)) with
    | nil =>
      exfalso
      rw [hX] at hA
      cases hA
    | cons x xs =>
      rw [hX] at hA
      simp only [List.map_cons, List.cons.injEq, List.map_eq_nil_iff] at hA
      obtain ⟨hx, hxs⟩ := hA
      rw [hxs]
      simp only [List.map_cons, List.map_nil, List.cons.injEq, and_true]
      omega


theorem offIn_min (bets : List BetAmount) (n t e : Nat) (es : List Nat)
    (h : offIn bets n t = e :: es) :
    ∀ x, 1 ≤ x → x < e → isFoldedAt bets ((t + x) % n) = true := by
  obtain ⟨⟨he1, he2, henf⟩, hA, hes⟩ := offIn_head bets n t e es h
  intro x hx1 hx2
  by_contra hf
  have hf' : isFoldedAt bets ((t + x) % n) = false := by
    cases hv : isFoldedAt bets ((t + x) % n)
    · rfl
    · exact absurd hv hf
  have : x ∈ (List.range' 1 e).filter (fun y => ! isFoldedAt bets ((t + y) % n)) := by
    rw [List.mem_filter, List.mem_range'_1, hf']
    exact ⟨⟨hx1, by omega⟩, rfl⟩
  rw [hA] at this
  simp at this
  omega

theorem nextFrom_offIn (s : GameState) (t e : Nat) (es : List Nat)
    (hn : 0 < s.numPlayers) (h : offIn s.bets s.numPlayers t = e :: es) :
    ({ s with turn := t } : GameState).next_in_player =
      some ((t + e) % s.numPlayers) := by
  obtain ⟨⟨he1, he2, henf⟩, hA, hes⟩ := offIn_head s.bets s.numPlayers t e es h
  have hmin := offIn_min s.bets s.numPlayers t e es h
  show nipAux s.bets s.numPlayers s.numPlayers ((t + 1) % s.numPlayers) =
    some ((t + e) % s.numPlayers)
  rw [nipAux_some_iff s.bets s.numPlayers hn s.numPlayers ((t + 1) % s.numPlayers) _
    (Nat.mod_lt _ hn)]
  refine ⟨e - 1, by omega, ?_, ?_, ?_⟩
  · intro x hx
    rw [Nat.mod_add_mod, show t + 1 + x = t + (1 + x) by omega]
    exact hmin (1 + x) (by omega) (by omega)
  · rw [Nat.mod_add_mod, show t + 1 + (e - 1) = t + e by omega]
    exact henf
  · rw [Nat.mod_add_mod, show t + 1 + (e - 1) = t + e by omega]

theorem cycleList_offIn (s : GameState) (hn : 0 < s.numPlayers) :
    ∀ (m t : Nat), t < s.numPlayers → m ≤ (offIn s.bets s.numPlayers t).length →
      cycleList s t m =
        ((offIn s.bets s.numPlayers t).take m).map (fun e => (t + e) % s.numPlayers) := by
  intro m
  induction m with
  | zero => intro t ht hm; rfl
  | succ m ih =>
    intro t ht hm
    cases hoff : offIn s.bets s.numPlayers t with
    | nil => rw [hoff] at hm; simp at hm
    | cons e es =>
      rw [hoff] at hm
      simp only [List.length_cons] at hm
      have hnext := nextFrom_offIn s t e es hn hoff
      have hstep := offIn_step s.bets s.numPlayers t e es hoff
      have hu : (t + e) % s.numPlayers < s.numPlayers := Nat.mod_lt _ hn
      have hlen : (offIn s.bets s.numPlayers ((t + e) % s.numPlayers)).length
          = es.length + 1 := by
        rw [hstep]
        simp
      have hes_lt : ∀ x ∈ es, e < x := by
        have hpw := offIn_pairwise s.bets s.numPlayers t
        rw [hoff] at hpw
        exact (List.pairwise_cons.mp hpw).1
      rw [cycleList, hnext]
      show ((t + e) % s.numPlayers) :: cycleList s ((t + e) % s.numPlayers) m =
        List.map (fun e => (t + e) % s.numPlayers) (List.take (m + 1) (e :: es))
      rw [ih ((t + e) % s.numPlayers) hu (by omega)]
      rw [hstep]
      rw [List.take_append_of_le_length (by rw [List.length_map]; omega)]
      rw [← List.map_take, List.map_map]
      rw [List.take_succ_cons, List.map_cons]
      congr 1
      apply List.map_congr_left
      intro x hx
      have hex : e < x := hes_lt x (List.mem_of_mem_take hx)
      simp only [Function.comp]
      rw [Nat.mod_add_mod, show t + e + (x - e) = t + x by omega]

theorem offIn_map_nodup (bets : List BetAmount) (n t : Nat) :
    ((offIn bets n t).map (fun e => (t + e) % n)).Nodup := by
  have key : ∀ x y : Nat, 1 ≤ x → x ≤ n → 1 ≤ y → y ≤ n → x ≤ y →
      (t + x) % n = (t + y) % n → x = y := by
    intro x y hx1 hx2 hy1 hy2 hxy hmod
    have hdvd : n ∣ (t + y) - (t + x) :=
      (Nat.modEq_iff_dvd' (by omega)).mp hmod
    rw [show (t + y) - (t + x) = y - x by omega] at hdvd
    rcases Nat.eq_zero_or_pos (y - x) with h0 | hpos
    · omega
    · have := Nat.le_of_dvd hpos hdvd
      omega
  refine List.Nodup.map_on ?_ ?_
  · intro x hx y hy hfxy
    have hxb := (mem_offIn bets n t x).mp hx
    have hyb := (mem_offIn bets n t y).mp hy
    rcases Nat.le_total x y with hle | hle
    · exact key x y hxb.1 hxb.2.1 hyb.1 hyb.2.1 hle hfxy
    · exact (key y x hyb.1 hyb.2.1 hxb.1 hxb.2.1 hle hfxy.symm).symm
  · exact List.Nodup.filter _ (List.nodup_range' 1 n)

theorem offIn_map_mem (bets : List BetAmount) (n t : Nat) (hn : 0 < n) (j : Nat) :
    (j ∈ (offIn bets n t).map (fun e => (t + e) % n)) ↔
      (j < n ∧ isFoldedAt bets j = false) := by
  rw [List.mem_map]
  constructor
  · rintro ⟨e, he, hj⟩
    have hb := (mem_offIn bets n t e).mp he
    rw [← hj]
    exact ⟨Nat.mod_lt _ hn, hb.2.2⟩
  · rintro ⟨hjn, hjf⟩
    have hr : t % n < n := Nat.mod_lt _ hn
    rcases Nat.lt_or_ge (t % n) j with hrj | hrj
    · refine ⟨j - t % n, ?_, ?_⟩
      · rw [mem_offIn]
        have hidx : (t + (j - t % n)) % n = j := by
          rw [← Nat.mod_add_mod, show t % n + (j - t % n) = j by omega,
            Nat.mod_eq_of_lt hjn]
        rw [hidx]
        exact ⟨by omega, by omega, hjf⟩
      · rw [← Nat.mod_add_mod, show t % n + (j - t % n) = j by omega,
          Nat.mod_eq_of_lt hjn]
    · refine ⟨n - t % n + j, ?_, ?_⟩
      · rw [mem_offIn]
        have hidx : (t + (n - t % n + j)) % n = j := by
          rw [← Nat.mod_add_mod, show t % n + (n - t % n + j) = n + j by omega,
            Nat.add_mod_left, Nat.mod_eq_of_lt hjn]
        rw [hidx]
        exact ⟨by omega, by omega, hjf⟩
      · rw [← Nat.mod_add_mod, show t % n + (n - t % n + j) = n + j by omega,
          Nat.add_mod_left, Nat.mod_eq_of_lt hjn]


theorem num_players_in_eq_offIn_length (s : GameState) (hn : 0 < s.numPlayers)
    (hWF : s.bets.length = s.numPlayers) (t : Nat) :
    s.num_players_in = (offIn s.bets s.numPlayers t).length := by
  have hperm : ((offIn s.bets s.numPlayers t).map
      (fun e => (t + e) % s.numPlayers)).Perm
      ((List.range s.bets.length).filter (fun i => ! s.player_is_folded i)) := by
    rw [List.perm_ext_iff_of_nodup (offIn_map_nodup s.bets s.numPlayers t)
      (List.Nodup.filter _ (List.nodup_range _))]
    intro j
    rw [offIn_map_mem s.bets s.numPlayers t hn j]
    simp only [List.mem_filter, List.mem_range, Bool.not_eq_true',
      GameState.player_is_folded, hWF]
  have := hperm.length_eq
  rw [List.length_map] at this
  unfold GameState.num_players_in
  omega

/-- Claim C10.  `next_in_player` returns `none` exactly when every seat is
folded; a returned seat is always a valid non-folded seat; when some
non-folded seat exists a seat is returned; and iterating `next_in_player`
(taking each returned seat as the new turn) from any turn visits, in
`num_players_in` steps — one full cycle — every non-folded seat exactly once. -/
theorem next_in_player_cycle (s : GameState) (hn : 0 < s.numPlayers)
    (hWF : s.bets.length = s.numPlayers) :
    (s.next_in_player = none ↔ ∀ i, i < s.numPlayers → s.player_is_folded i = true) ∧
    (∀ j, s.next_in_player = some j →
      j < s.numPlayers ∧ s.player_is_folded j = false) ∧
    ((∃ i, i < s.numPlayers ∧ s.player_is_folded i = false) →
      ∃ j, s.next_in_player = some j) ∧
    (∀ t, t < s.numPlayers →
      (cycleList s t s.num_players_in).Nodup ∧
      (∀ j, j ∈ cycleList s t s.num_players_in ↔
        (j < s.numPlayers ∧ s.player_is_folded j = false))) := by
  have ha : (s.turn + 1) % s.numPlayers < s.numPlayers := Nat.mod_lt _ hn
  have hpart1 : s.next_in_player = none ↔
      ∀ i, i < s.numPlayers → s.player_is_folded i = true := by
    show nipAux s.bets s.numPlayers s.numPlayers ((s.turn + 1) % s.numPlayers) = none ↔ _
    rw [nipAux_none_iff s.bets s.numPlayers hn s.numPlayers _ ha]
    constructor
    · intro h i hi
      rcases Nat.lt_or_ge i ((s.turn + 1) % s.numPlayers) with hlt | hle
      · have := h (s.numPlayers - (s.turn + 1) % s.numPlayers + i) (by omega)
        rw [show (s.turn + 1) % s.numPlayers +
            (s.numPlayers - (s.turn + 1) % s.numPlayers + i) = s.numPlayers + i by omega,
          Nat.add_mod_left, Nat.mod_eq_of_lt hi] at this
        exact this
      · have := h (i - (s.turn + 1) % s.numPlayers) (by omega)
        rw [show (s.turn + 1) % s.numPlayers + (i - (s.turn + 1) % s.numPlayers) = i
          by omega, Nat.mod_eq_of_lt hi] at this
        exact this
    · intro h d _
      exact h _ (Nat.mod_lt _ hn)
  refine ⟨hpart1, ?_, ?_, ?_⟩
  · intro j hj
    rw [show s.next_in_player =
        nipAux s.bets s.numPlayers s.numPlayers ((s.turn + 1) % s.numPlayers) from rfl,
      nipAux_some_iff s.bets s.numPlayers hn s.numPlayers ((s.turn + 1) % s.numPlayers)
        j ha] at hj
    obtain ⟨d, _, _, hnf, hjd⟩ := hj
    rw [hjd]
    exact ⟨Nat.mod_lt _ hn, hnf⟩
  · intro hex
    cases hni : s.next_in_player with
    | some j => exact ⟨j, rfl⟩
    | none =>
      obtain ⟨i, hi, hif⟩ := hex
      rw [hpart1.mp hni i hi] at hif
      cases hif
  · intro t ht
    have hk := num_players_in_eq_offIn_length s hn hWF t
    have hcyc := cycleList_offIn s hn s.num_players_in t ht (by omega)
    rw [hk, List.take_length] at hcyc
    rw [hk, hcyc]
    constructor
    · exact offIn_map_nodup s.bets s.numPlayers t
    · intro j
      rw [offIn_map_mem s.bets s.numPlayers t hn j]
      exact Iff.rfl

/-- Closed instance of `next_in_player_cycle` on `stateC10` (3 seats, seat 1
folded). -/
theorem next_in_player_cycle_witness :
    (stateC10.next_in_player = none ↔
      ∀ i, i < stateC10.numPlayers → stateC10.player_is_folded i = true) ∧
    (∀ j, stateC10.next_in_player = some j →
      j < stateC10.numPlayers ∧ stateC10.player_is_folded j = false) ∧
    ((∃ i, i < stateC10.numPlayers ∧ stateC10.player_is_folded i = false) →
      ∃ j, stateC10.next_in_player = some j) ∧
    (∀ t, t < stateC10.numPlayers →
      (cycleList stateC10 t stateC10.num_players_in).Nodup ∧
      (∀ j, j ∈ cycleList stateC10 t stateC10.num_players_in ↔
        (j < stateC10.numPlayers ∧ stateC10.player_is_folded j = false))) :=
  next_in_player_cycle stateC10 (by decide) (by decide)

end Rainbase
